import Mathlib

/-!
A shallow embedding of the barbershop sales reporting pipeline of
`app.py`: the cleaning pass of `load_sales_dataframe` (its post-fetch
part), the period filter `filter_by_period`, the aggregator
`compute_summaries`, and the heuristic generator `ai_insights`.

Dataframes are modelled as lists of rows together with explicit
column-presence flags; pandas timestamps as a day number plus a
time-of-day offset; prices as exact rationals; a null cell as `none`.
The in-place addition of the `dow` column performed by `ai_insights`
is modelled by returning the post-state of its dataframe argument
alongside the insight list.
-/

/-- A pandas timestamp: days since 1970-01-01 plus minutes into the
day.  Parsing a plain calendar date yields time-of-day `0`. -/
structure DateTime where
  day : Int
  tod : Nat
deriving DecidableEq, Repr

/-- `pd.to_datetime(d)` on a plain calendar date: midnight of `d`. -/
def dtOfDay (d : Int) : DateTime := ⟨d, 0⟩

/-- Comparison of pandas timestamps, as used by the boolean mask built
in `filter_by_period`. -/
def dtLe (a b : DateTime) : Bool :=
  decide (a.day < b.day) || (decide (a.day = b.day) && decide (a.tod ≤ b.tod))

/-- Days since 1970-01-01 of a proleptic-Gregorian civil date, the day
count underlying pandas timestamps. -/
def daysFromCivil (y m d : Int) : Int :=
  let y2 := if m ≤ 2 then y - 1 else y
  let era := (if 0 ≤ y2 then y2 else y2 - 399) / 400
  let yoe := y2 - era * 400
  let mp := (m + 9) % 12
  let doy := (153 * mp + 2) / 5 + d - 1
  let doe := yoe * 365 + yoe / 4 - yoe / 100 + doy
  era * 146097 + doe - 719468

/-- `Timestamp.day_name()`: day 0 (1970-01-01) was a Thursday. -/
def dayName (day : Int) : String :=
  ["Monday", "Tuesday", "Wednesday", "Thursday", "Friday", "Saturday",
    "Sunday"].getD ((day + 3).emod 7).toNat "Monday"

/-- Numeric value of a digit string, most significant digit first. -/
def digitsVal (cs : List Char) : Nat :=
  cs.foldl (fun a c => a * 10 + (c.toNat - 48)) 0

/-- Modelled from the spec: `pd.to_numeric(:, errors="coerce")` applied
to a string already stripped to the characters `[0-9.-]` — an optional
leading minus sign, then digits with at most one decimal point and at
least one digit overall; anything else coerces to null. -/
def parseDecimal (s : String) : Option Rat :=
  let cs := s.toList
  let sgn : Rat := if cs.head? = some '-' then -1 else 1
  let body := if cs.head? = some '-' then cs.tail else cs
  if body.any (fun c => c = '-') then none
  else
    let ip := body.takeWhile Char.isDigit
    let rest := body.dropWhile Char.isDigit
    match rest with
    | [] =>
      if ip.isEmpty then none else some (sgn * (digitsVal ip : Rat))
    | '.' :: fp =>
      if fp.all Char.isDigit then
        if ip.isEmpty && fp.isEmpty then none
        else some (sgn * ((digitsVal ip : Rat) +
          (digitsVal fp : Rat) / ((10 : Rat) ^ fp.length)))
      else none
    | _ => none

/-- The regex replacement of line 48 of `app.py`: delete every
character other than a digit, `.` or `-`. -/
def stripNonNumeric (s : String) : String :=
  String.mk (s.toList.filter (fun c => c.isDigit || c = '.' || c = '-'))

/-- `Series.astype(str)` on one cell: a missing value (NaN) renders as
the literal string "nan". -/
def asStr : Option String → String
  | none => "nan"
  | some s => s

/-- Split a character list at every occurrence of `c`. -/
def splitOnChar (c : Char) : List Char → List (List Char)
  | [] => [[]]
  | x :: xs =>
    let r := splitOnChar c xs
    if x = c then [] :: r else (x :: r.headD []) :: r.tail

/-- Python `str.strip()`: remove surrounding whitespace. -/
def pyStrip (s : String) : String :=
  String.mk (((s.toList.dropWhile Char.isWhitespace).reverse.dropWhile
    Char.isWhitespace).reverse)

/-- Modelled from the spec: `pd.to_datetime(:, errors="coerce")`, the
permissive date parser used on the `Date` column.  The model accepts
the sheet's `M/D/YYYY` form (pandas' default month-first reading) and
coerces anything else to null; no claim depends on which textual forms
parse, only on null-versus-parsed. -/
def parseDate (s : String) : Option DateTime :=
  match splitOnChar '/' s.toList with
  | [ms, ds, ys] =>
    if ms.all Char.isDigit && ds.all Char.isDigit && ys.all Char.isDigit
        && !ms.isEmpty && !ds.isEmpty && !ys.isEmpty then
      let m : Int := digitsVal ms
      let d : Int := digitsVal ds
      let y : Int := digitsVal ys
      if 1 ≤ m && m ≤ 12 && 1 ≤ d && d ≤ 31 && 1 ≤ y then
        some ⟨daysFromCivil y m d, 0⟩
      else none
    else none
  | _ => none

/-- One raw sheet record, with column labels already normalized and
aliased ("Barber" folded into "Barber Name"); a `none` cell is a
missing value (NaN) in the frame built from the records. -/
structure RawRecord where
  date : Option String
  price : Option String
  barber : Option String
  payment : Option String
deriving DecidableEq, Repr

/-- The raw dataframe: column-presence flags plus the records. -/
structure RawTable where
  hasDate : Bool
  hasPrice : Bool
  hasBarber : Bool
  hasPayment : Bool
  rows : List RawRecord
deriving DecidableEq, Repr

/-- A row of the cleaned frame before the `dropna`: the date and the
price may still be null. -/
structure PreTxn where
  date : Option DateTime
  price : Option Rat
  barber : String
  payment : String
deriving DecidableEq, Repr

/-- A surviving transaction row.  `dow` is the day-of-week column that
`ai_insights` adds in place; it is absent right after normalization. -/
structure Txn where
  date : DateTime
  price : Rat
  barber : String
  payment : String
  dow : Option String
deriving DecidableEq, Repr

/-- The normalized transaction table. -/
structure Table where
  hasBarber : Bool
  hasPayment : Bool
  hasDow : Bool
  rows : List Txn
deriving DecidableEq, Repr

/-- The per-row effect of lines 39-57 of `app.py`: parse the date,
strip and coerce the price, and `astype(str).str.strip()` the two text
columns; a column missing from the frame yields a null date or price,
and an absent text column is recorded by the table's flag. -/
def cleanRow (parse : String → Option DateTime) (t : RawTable) (r : RawRecord) : PreTxn :=
  { date := if t.hasDate then r.date.bind parse else none
    price := if t.hasPrice then parseDecimal (stripNonNumeric (asStr r.price)) else none
    barber := if t.hasBarber then pyStrip (asStr r.barber) else ""
    payment := if t.hasPayment then pyStrip (asStr r.payment) else "" }

/-- `dropna(subset=["Date", "Price"])` on one row: keep it exactly
when both the date and the price are non-null. -/
def finalizeRow : PreTxn → Option Txn
  | ⟨some d, some p, b, pm⟩ => some ⟨d, p, b, pm, none⟩
  | _ => none

/-- The cleaning pass of `load_sales_dataframe` (lines 27-60 of
`app.py`), applied to the already-fetched records: an empty record set
is returned as the empty column-less frame; otherwise dates are
parsed, prices coerced, text trimmed, and every row with a null date
or null price is dropped, preserving order. -/
def load_sales_dataframe (parse : String → Option DateTime) (t : RawTable) : Table :=
  if t.rows.isEmpty then ⟨false, false, false, []⟩
  else ⟨t.hasBarber, t.hasPayment, false,
    (t.rows.map (cleanRow parse t)).filterMap finalizeRow⟩

/-- `filter_by_period` (lines 63-65 of `app.py`): compare the stored
timestamps against the window endpoints taken at midnight and return
the matching rows as a fresh copy.  The first component is the
post-state of the input frame (`.loc` and `.copy` do not mutate it),
the second the filtered result; `mode` is accepted and ignored exactly
as in the source. -/
def filter_by_period (df : Table) (mode : String) (start_date end_date : Int) :
    Table × Table :=
  let kept := df.rows.filter
    (fun r => dtLe (dtOfDay start_date) r.date && dtLe r.date (dtOfDay end_date))
  (df, { df with rows := kept })

/-- A row of a grouped table: (group label, revenue, transactions). -/
abbrev AggRow := String × Rat × Nat

/-- `df.groupby(col)["Price"].agg(["sum", "count"])`: one row per
distinct label, in ascending label order (pandas sorts group keys). -/
def aggBy (rows : List Txn) (f : Txn → String) : List AggRow :=
  (List.insertionSort (fun a b => a ≤ b) ((rows.map f).dedup)).map
    (fun l => (l, ((rows.filter (fun r => decide (f r = l))).map Txn.price).sum,
      (rows.filter (fun r => decide (f r = l))).length))

/-- `.sort_values("revenue", ascending=False)`, modelled as a stable
sort comparing revenues only. -/
def sortByRevDesc (l : List AggRow) : List AggRow :=
  List.insertionSort (fun a b => b.2.1 ≤ a.2.1) l

/-- The report produced by `compute_summaries`: a grouped table is
`none` exactly when the grouping column is absent from the frame. -/
structure Summaries where
  total_revenue : Rat
  num_transactions : Nat
  by_barber : Option (List AggRow)
  by_method : Option (List AggRow)
  by_day : List (Int × Rat)
deriving DecidableEq, Repr

/-- `compute_summaries` (lines 68-85 of `app.py`). -/
def compute_summaries (df : Table) : Summaries :=
  let total := if df.rows.isEmpty then 0 else (df.rows.map Txn.price).sum
  let byB := if df.hasBarber then some (sortByRevDesc (aggBy df.rows Txn.barber)) else none
  let byM := if df.hasPayment then some (sortByRevDesc (aggBy df.rows Txn.payment)) else none
  let days := List.insertionSort (fun a b => a ≤ b) ((df.rows.map (fun r => r.date.day)).dedup)
  let byD := days.map
    (fun d => (d, ((df.rows.filter (fun r => decide (r.date.day = d))).map Txn.price).sum))
  { total_revenue := total
    num_transactions := df.rows.length
    by_barber := byB
    by_method := byM
    by_day := byD }

/-- One insight message, identified by its content; the rendered string
is a function of these fields. -/
inductive Insight where
  | noData
  | topPerformer (name : String) (revenue : Rat) (transactions : Nat)
  | cashShare (share cash card : Rat)
  | dowTrend (slowest fastest : String) (drop : Rat)
deriving DecidableEq, Repr

/-- `methods["revenue"].get("Cash", 0)` generalized: the revenue of the
grouped row labelled `k`, or 0 when no such row exists. -/
def revOf (bm : List AggRow) (k : String) : Rat :=
  match bm.find? (fun g => decide (g.1 = k)) with
  | some g => g.2.1
  | none => 0

/-- Lines 98-102 of `app.py`: the top-performer heuristic. -/
def topInsight : Option (List AggRow) → List Insight
  | some (g :: _) => [.topPerformer g.1 g.2.1 g.2.2]
  | _ => []

/-- Lines 104-110 of `app.py`: the cash-versus-card heuristic.  `cash`
is the revenue of the label exactly "Cash", `card` the remaining
revenue; the message is emitted when either is nonzero (Python
truthiness of `cash or card`), with share 0 when the combined total is
zero. -/
def cashInsight : Option (List AggRow) → List Insight
  | none => []
  | some bm =>
    if bm.isEmpty then []
    else
      let cash := revOf bm "Cash"
      let card := (bm.map (fun g => g.2.1)).sum - cash
      if cash ≠ 0 ∨ card ≠ 0 then
        [.cashShare (if cash + card ≠ 0 then cash / (cash + card) * 100 else 0) cash card]
      else []

/-- Line 113 of `app.py`, `df["dow"] = df["Date"].dt.day_name()`: the
in-place addition of the day-of-week column to the frame that
`ai_insights` was given. -/
def addDowColumn (df : Table) : Table :=
  let rows2 := df.rows.map (fun r => { r with dow := some (dayName r.date.day) })
  { df with hasDow := true, rows := rows2 }

/-- Lines 114-120 of `app.py`: group on the `dow` column, take the mean
price per group (ascending `sort_values()`), and compare the slowest
and fastest weekdays when the largest mean is positive. -/
def dowInsight (rows : List Txn) : List Insight :=
  let key := fun (r : Txn) => asStr r.dow
  let labels := List.insertionSort (fun a b => a ≤ b) ((rows.map key).dedup)
  let groups := labels.map (fun l =>
    (l, ((rows.filter (fun r => decide (key r = l))).map Txn.price).sum /
      ((rows.filter (fun r => decide (key r = l))).length : Rat)))
  match List.insertionSort (fun a b : String × Rat => a.2 ≤ b.2) groups with
  | [] => []
  | g :: gs =>
    let lastG := (g :: gs).getLastD g
    if 0 < lastG.2 then
      [.dowTrend g.1 lastG.1 ((1 - g.2 / lastG.2) * 100)]
    else []

/-- `ai_insights` (lines 92-122 of `app.py`).  The first component is
the post-state of the `df` argument: the function returns early on an
empty frame, and otherwise adds the `dow` column to its input in place
before grouping on that column. -/
def ai_insights (df : Table) (summaries : Summaries) : Table × List Insight :=
  if df.rows.isEmpty then (df, [.noData])
  else
    let i1 := topInsight summaries.by_barber
    let i2 := cashInsight summaries.by_method
    let post := addDowColumn df
    (post, i1 ++ i2 ++ dowInsight post.rows)

/-! ### Helper lemmas -/

/-- The `dropna` stage keeps exactly the rows whose date and price are
both non-null, in order, and the surviving transactions carry those
values. -/
lemma filterMap_finalizeRow_spec : ∀ l : List PreTxn,
    (l.filterMap finalizeRow).map (fun tx => (some tx.date, some tx.price))
      = (l.filter (fun p => p.date.isSome && p.price.isSome)).map
          (fun p => (p.date, p.price))
  | [] => rfl
  | p :: l => by
    rcases p with ⟨d, pr, b, pm⟩
    rcases d with _ | d <;> rcases pr with _ | pr <;>
      simp [finalizeRow, List.filterMap_cons, List.filter_cons,
        filterMap_finalizeRow_spec l]

/-! ### C1: normalization drops exactly the null-date/null-price rows -/

/-- C1.  For every raw table, the transactions produced by the cleaning
pass of `load_sales_dataframe` are exactly the cleaned rows whose
parsed date and coerced price are both non-null, in source order: every
surviving transaction has a (non-null) date and price taken from such a
row, and every row with a null date or price is dropped.  The filtering
is a total function, so it cannot raise. -/
theorem normalize_keeps_exactly_nonnull_rows
    (parse : String → Option DateTime) (t : RawTable) :
    ((load_sales_dataframe parse t).rows.map (fun tx => (some tx.date, some tx.price)))
      = ((t.rows.map (cleanRow parse t)).filter
          (fun p => p.date.isSome && p.price.isSome)).map (fun p => (p.date, p.price)) := by
  unfold load_sales_dataframe
  by_cases h : t.rows.isEmpty
  · rw [List.isEmpty_iff] at h
    simp [h]
  · simp only [h, if_false]
    exact filterMap_finalizeRow_spec (t.rows.map (cleanRow parse t))

/-! ### C8: insights on an empty table -/

/-- C8.  On an empty transaction table, `ai_insights` returns exactly
the single no-data sentinel, regardless of the summary report, and
leaves the table untouched (it returns before adding the `dow`
column); no heuristic insight is produced. -/
theorem ai_insights_empty (df : Table) (s : Summaries) (h : df.rows = []) :
    ai_insights df s = (df, [Insight.noData]) := by
  simp [ai_insights, h]

/-- Witness for C8 at the concrete empty table. -/
theorem ai_insights_empty_witness :
    ai_insights ⟨false, false, false, []⟩ (compute_summaries ⟨false, false, false, []⟩)
      = (⟨false, false, false, []⟩, [Insight.noData]) :=
  ai_insights_empty ⟨false, false, false, []⟩ (compute_summaries ⟨false, false, false, []⟩) rfl

/-! ### C4: the period filter compares timestamps, not calendar dates -/

/-- A one-row table whose single transaction falls on day 0 with a
nonzero time-of-day (60 minutes past midnight). -/
def exC4 : Table := ⟨false, false, false, [⟨⟨0, 60⟩, 10, "", "", none⟩]⟩

/-- Counterexample to C4 as stated: the transaction is dated on the
window's end date (day 0) with a nonzero time-of-day, yet
`filter_by_period` with the window `[0, 0]` excludes it — the claim
promised it would be included. -/
theorem filter_by_period_excludes_end_date_with_time :
    (filter_by_period exC4 "Daily" 0 0).2.rows = [] := by decide

/-- C4 (amended).  `filter_by_period` keeps exactly the transactions
whose full stored timestamp lies between midnight of `start_date` and
midnight of `end_date`: a row is kept iff its day is at least
`start_date` and either strictly before `end_date`, or on `end_date`
with a zero time-of-day.  Rows on the end date with a nonzero
time-of-day are excluded, so the comparison is not date-only. -/
theorem filter_by_period_mem (df : Table) (m : String) (s e : Int) (r : Txn) :
    r ∈ (filter_by_period df m s e).2.rows ↔
      r ∈ df.rows ∧ s ≤ r.date.day ∧
        (r.date.day < e ∨ (r.date.day = e ∧ r.date.tod = 0)) := by
  simp only [filter_by_period, List.mem_filter, dtOfDay, dtLe, Bool.and_eq_true,
    Bool.or_eq_true, decide_eq_true_eq]
  constructor
  · rintro ⟨hm, ⟨h1, h2⟩⟩
    exact ⟨hm, by omega, by omega⟩
  · rintro ⟨hm, h1, h2⟩
    exact ⟨hm, by omega, by omega⟩

/-! ### C2: purity of the pipeline stages -/

/-- A one-row table used to exhibit the `dow`-column mutation. -/
def exC2 : Table := ⟨false, false, false, [⟨⟨0, 0⟩, 10, "", "", none⟩]⟩

/-- Counterexample to C2 as stated: `ai_insights` does not leave the
table it is given unchanged — on this nonempty table the post-state of
its dataframe argument differs from the input (a `dow` column has been
added in place). -/
theorem ai_insights_mutates_input :
    (ai_insights exC2 (compute_summaries exC2)).1 ≠ exC2 := by decide

/-- C2 (amended).  `filter_by_period` leaves its input unchanged, but
`ai_insights` on a nonempty table mutates its input in place by adding
the day-of-week (`dow`) column; the date, price, staff-name and
payment-method contents are otherwise preserved. -/
theorem pipeline_frame_effects (df : Table) (s : Summaries) (m : String)
    (a b : Int) (h : df.rows ≠ []) :
    (filter_by_period df m a b).1 = df ∧
    (ai_insights df s).1 = addDowColumn df ∧
    ((ai_insights df s).1.rows.map (fun r => (r.date, r.price, r.barber, r.payment)))
      = df.rows.map (fun r => (r.date, r.price, r.barber, r.payment)) := by
  have hne : df.rows.isEmpty = false := by
    rw [List.isEmpty_eq_false]
    exact h
  refine ⟨rfl, ?_, ?_⟩
  · simp [ai_insights, hne]
  · simp [ai_insights, hne, addDowColumn, List.map_map]

/-- Witness for C2 (amended) at the concrete one-row table. -/
theorem pipeline_frame_effects_witness :
    (filter_by_period exC2 "Daily" 0 0).1 = exC2 ∧
    (ai_insights exC2 (compute_summaries exC2)).1 = addDowColumn exC2 ∧
    ((ai_insights exC2 (compute_summaries exC2)).1.rows.map
        (fun r => (r.date, r.price, r.barber, r.payment)))
      = exC2.rows.map (fun r => (r.date, r.price, r.barber, r.payment)) :=
  pipeline_frame_effects exC2 (compute_summaries exC2) "Daily" 0 0 (by decide)

/-! ### C5: summaries of an empty table -/

/-- An empty (zero-row) table whose frame still carries the
`Barber Name` column, as any empty filter result of a table with that
column does. -/
def exC5 : Table := ⟨true, false, false, []⟩

/-- Counterexample to C5 as stated: this table is empty, so the
`Barber Name` column has zero non-null values across every row, yet
`compute_summaries` still emits `by_barber` — as an empty grouped
table rather than omitting it. -/
theorem empty_grouped_table_is_emitted :
    exC5.rows = [] ∧ (compute_summaries exC5).by_barber = some [] := by decide

/-- C5 (amended).  On an empty transaction table `compute_summaries`
returns total revenue 0 and transaction count 0 and cannot raise (it
is a total function); the grouped tables are omitted exactly when the
corresponding column is absent from the frame — when the column is
present they are emitted as empty grouped tables, not omitted. -/
theorem compute_summaries_empty (df : Table) (h : df.rows = []) :
    (compute_summaries df).total_revenue = 0 ∧
    (compute_summaries df).num_transactions = 0 ∧
    ((compute_summaries df).by_barber = if df.hasBarber then some [] else none) ∧
    ((compute_summaries df).by_method = if df.hasPayment then some [] else none) := by
  obtain ⟨hb, hp, hd, rows⟩ := df
  simp only at h
  subst h
  refine ⟨by simp [compute_summaries], by simp [compute_summaries], ?_, ?_⟩ <;>
    cases hb <;> cases hp <;>
      simp [compute_summaries, aggBy, sortByRevDesc, List.dedup]

/-- Witness for C5 (amended) at the concrete empty table with a
`Barber Name` column. -/
theorem compute_summaries_empty_witness :
    (compute_summaries exC5).total_revenue = 0 ∧
    (compute_summaries exC5).num_transactions = 0 ∧
    ((compute_summaries exC5).by_barber = if exC5.hasBarber then some [] else none) ∧
    ((compute_summaries exC5).by_method = if exC5.hasPayment then some [] else none) :=
  compute_summaries_empty exC5 rfl

/-! ### C3: surviving prices are coerced, but can be negative -/

/-- A raw table with one record whose price text is the negative
currency amount `$-10` and whose date parses. -/
def exC3 : RawTable :=
  ⟨true, true, false, false, [⟨some "1/2/2025", some "$-10", none, none⟩]⟩

/-- The single transaction surviving normalization of `exC3`
(2025-01-02 is day 20090 since the epoch). -/
def txC3 : Txn := ⟨⟨20090, 0⟩, -10, "", "", none⟩

/-- Evaluation of the cleaning pass on `exC3`. -/
lemma exC3_rows : (load_sales_dataframe parseDate exC3).rows = [txC3] := by
  simp [load_sales_dataframe, exC3, txC3, cleanRow, parseDate, splitOnChar,
    daysFromCivil, parseDecimal, stripNonNumeric, asStr, digitsVal, finalizeRow, pyStrip]

/-- Counterexample to C3 as stated: the record with price text `$-10`
survives normalization with the negative coerced price `-10`, so not
every surviving price is nonnegative. -/
theorem normalized_price_can_be_negative :
    (load_sales_dataframe parseDate exC3).rows.map Txn.price = [(-10 : Rat)]
      ∧ ((-10 : Rat) < 0) := by
  constructor
  · rw [exC3_rows]
    simp [txC3]
  · norm_num

/-- C3 (amended).  Every transaction surviving normalization has a
price on which the numeric coercion (strip to `[0-9.-]`, then parse)
succeeded — the price column was present and some raw record's price
text coerces to exactly that value — but the coercion accepts negative
amounts, so the surviving price need not be nonnegative. -/
theorem normalized_price_from_coercion (parse : String → Option DateTime)
    (t : RawTable) (tx : Txn) (h : tx ∈ (load_sales_dataframe parse t).rows) :
    t.hasPrice = true ∧
    ∃ r ∈ t.rows, parseDecimal (stripNonNumeric (asStr r.price)) = some tx.price := by
  unfold load_sales_dataframe at h
  by_cases he : t.rows.isEmpty
  · simp [he] at h
  · simp only [he, if_false] at h
    rcases List.mem_filterMap.mp h with ⟨p, hp, hfin⟩
    rcases List.mem_map.mp hp with ⟨r, hr, hcr⟩
    rcases p with ⟨od, op, b, pm⟩
    rcases od with _ | d
    · simp [finalizeRow] at hfin
    rcases op with _ | pr
    · simp [finalizeRow] at hfin
    · rw [show finalizeRow ⟨some d, some pr, b, pm⟩ = some ⟨d, pr, b, pm, none⟩ from rfl,
        Option.some_inj] at hfin
      subst hfin
      have hpr : (cleanRow parse t r).price = some pr := by rw [hcr]
      by_cases hhp : t.hasPrice
      · refine ⟨hhp, r, hr, ?_⟩
        simpa [cleanRow, hhp] using hpr
      · simp [cleanRow, hhp] at hpr

/-- Witness for C3 (amended) at the concrete `$-10` record. -/
theorem normalized_price_from_coercion_witness :
    exC3.hasPrice = true ∧
    ∃ r ∈ exC3.rows, parseDecimal (stripNonNumeric (asStr r.price)) = some txC3.price :=
  normalized_price_from_coercion parseDate exC3 txC3
    (by rw [exC3_rows]; exact List.mem_singleton_self txC3)

/-! ### C9: grouped revenues sum to the total -/

/-- Splitting a price sum along a boolean predicate. -/
lemma sum_filter_not_price (p : Txn → Bool) (l : List Txn) :
    ((l.filter p).map Txn.price).sum + ((l.filter (fun r => !p r)).map Txn.price).sum
      = (l.map Txn.price).sum := by
  induction l with
  | nil => simp
  | cons x l ih =>
    rcases Bool.eq_false_or_eq_true (p x) with h | h
    · simp [List.filter_cons, h]
      linear_combination ih
    · simp [List.filter_cons, h]
      linear_combination ih

/-- Summing the per-label price sums over a duplicate-free list of
labels covering all rows reproduces the total price sum. -/
lemma sum_over_labels (f : Txn → String) :
    ∀ L : List String, L.Nodup → ∀ rows : List Txn, (∀ r ∈ rows, f r ∈ L) →
      (L.map (fun l => ((rows.filter (fun r => decide (f r = l))).map Txn.price).sum)).sum
        = (rows.map Txn.price).sum := by
  intro L
  induction L with
  | nil =>
    intro _ rows hall
    cases rows with
    | nil => simp
    | cons r rs => exact absurd (hall r (by simp)) (by simp)
  | cons l L ih =>
    intro hnd rows hall
    have hl_not_mem : l ∉ L := (List.nodup_cons.mp hnd).1
    have hnd' : L.Nodup := (List.nodup_cons.mp hnd).2
    have htail :
        L.map (fun l2 => ((rows.filter (fun r => decide (f r = l2))).map Txn.price).sum)
          = L.map (fun l2 => (((rows.filter (fun r => !decide (f r = l))).filter
              (fun r => decide (f r = l2))).map Txn.price).sum) := by
      apply List.map_congr_left
      intro l2 hl2
      have hne : l2 ≠ l := fun he => hl_not_mem (he ▸ hl2)
      rw [List.filter_filter]
      have hfeq : rows.filter (fun r => decide (f r = l2))
          = rows.filter (fun a => decide (f a = l2) && !decide (f a = l)) :=
        List.filter_congr (fun r _ => by
          by_cases h : f r = l2
          · simp [h, hne]
          · simp [h])
      rw [hfeq]
    have hall2 : ∀ r ∈ rows.filter (fun r => !decide (f r = l)), f r ∈ L := by
      intro r hr
      rcases List.mem_filter.mp hr with ⟨hrr, hcond⟩
      have hne : ¬f r = l := by simpa using hcond
      rcases List.mem_cons.mp (hall r hrr) with h | h
      · exact absurd h hne
      · exact h
    have hrec := ih hnd' (rows.filter (fun r => !decide (f r = l))) hall2
    rw [List.map_cons, List.sum_cons, htail, hrec]
    exact sum_filter_not_price (fun r => decide (f r = l)) rows

/-- C9.  For a non-empty table with a `Barber Name` column in which
every row has a non-empty staff name, the `by_barber` grouped table is
present and its per-group revenues sum to the report's total revenue.
(The proof does not even need the non-emptiness of the names: pandas
groups every string label, including the empty one.) -/
theorem by_barber_revenues_sum_to_total (df : Table) (hb : df.hasBarber = true)
    (hne : df.rows ≠ []) (hstaff : ∀ r ∈ df.rows, r.barber ≠ "") :
    ∃ groups, (compute_summaries df).by_barber = some groups ∧
      (groups.map (fun g => g.2.1)).sum = (compute_summaries df).total_revenue := by
  refine ⟨sortByRevDesc (aggBy df.rows Txn.barber), by simp [compute_summaries, hb], ?_⟩
  have hperm := List.perm_insertionSort (fun a b : AggRow => b.2.1 ≤ a.2.1)
    (aggBy df.rows Txn.barber)
  rw [sortByRevDesc, (hperm.map (fun g => g.2.1)).sum_eq]
  have hie : df.rows.isEmpty = false := by
    rw [List.isEmpty_eq_false]
    exact hne
  have htot : (compute_summaries df).total_revenue = (df.rows.map Txn.price).sum := by
    simp [compute_summaries, hie]
  rw [htot]
  unfold aggBy
  rw [List.map_map]
  exact sum_over_labels Txn.barber _
    ((List.perm_insertionSort _ _).nodup_iff.mpr (List.nodup_dedup _))
    df.rows
    (fun r hr => (List.perm_insertionSort _ _).mem_iff.mpr
      (List.mem_dedup.mpr (List.mem_map_of_mem Txn.barber hr)))

/-- A one-row table with a staff name, for the C9 witness. -/
def exC9 : Table := ⟨true, false, false, [⟨⟨0, 0⟩, 7, "Sam", "", none⟩]⟩

/-- Witness for C9 at a concrete one-row table. -/
theorem by_barber_revenues_sum_to_total_witness :
    ∃ groups, (compute_summaries exC9).by_barber = some groups ∧
      (groups.map (fun g => g.2.1)).sum = (compute_summaries exC9).total_revenue :=
  by_barber_revenues_sum_to_total exC9 rfl (by decide) (by decide)

/-! ### C6: grouped tables are sorted by descending revenue, ties by
ascending label -/

/-- The order in which grouped rows actually appear: strictly
descending revenue, with revenue ties in ascending label order (the
ascending key order of `groupby`, preserved by the stable revenue
sort) — not first-seen order. -/
def lexAgg (a b : AggRow) : Prop :=
  b.2.1 < a.2.1 ∨ (b.2.1 = a.2.1 ∧ a.1 < b.1)

lemma lexAgg_trans {a b c : AggRow} (h1 : lexAgg a b) (h2 : lexAgg b c) : lexAgg a c := by
  rcases h1 with h1 | ⟨h1, h1l⟩ <;> rcases h2 with h2 | ⟨h2, h2l⟩
  · exact Or.inl (lt_trans h2 h1)
  · exact Or.inl (by rw [h2]; exact h1)
  · exact Or.inl (by rw [← h1]; exact h2)
  · exact Or.inr ⟨h2.trans h1, lt_trans h1l h2l⟩

/-- Inserting a row whose label is below every label in a
`lexAgg`-sorted list (by the revenue-only comparison the code uses)
keeps the list `lexAgg`-sorted: the insertion passes strictly larger
revenues and stops at the first equal-or-smaller one, so a revenue tie
places the smaller label first. -/
lemma orderedInsert_rev_pairwise (x : AggRow) (l : List AggRow)
    (hp : l.Pairwise lexAgg) (hx : ∀ y ∈ l, x.1 < y.1) :
    (List.orderedInsert (fun a b => b.2.1 ≤ a.2.1) x l).Pairwise lexAgg := by
  induction l with
  | nil => simp [List.orderedInsert]
  | cons b l ih =>
    rcases List.pairwise_cons.mp hp with ⟨hb, hl⟩
    rw [List.orderedInsert]
    by_cases h : b.2.1 ≤ x.2.1
    · rw [if_pos h]
      refine List.pairwise_cons.mpr ⟨?_, hp⟩
      intro z hz
      have hxb : lexAgg x b := by
        rcases lt_or_eq_of_le h with hlt | heq
        · exact Or.inl hlt
        · exact Or.inr ⟨heq, hx b (by simp)⟩
      rcases List.mem_cons.mp hz with rfl | hzl
      · exact hxb
      · exact lexAgg_trans hxb (hb z hzl)
    · rw [if_neg h]
      refine List.pairwise_cons.mpr ⟨?_, ih hl (fun y hy => hx y (by simp [hy]))⟩
      intro z hz
      rcases (List.mem_orderedInsert _).mp hz with rfl | hzl
      · exact Or.inl (not_le.mp h)
      · exact hb z hzl

/-- The stable revenue-descending sort of a list whose labels are
strictly increasing is `lexAgg`-sorted. -/
lemma insertionSort_rev_pairwise (l : List AggRow)
    (hp : l.Pairwise (fun a b => a.1 < b.1)) :
    (List.insertionSort (fun a b => b.2.1 ≤ a.2.1) l).Pairwise lexAgg := by
  induction l with
  | nil => simp [List.insertionSort]
  | cons x l ih =>
    rcases List.pairwise_cons.mp hp with ⟨hx, hl⟩
    rw [List.insertionSort]
    exact orderedInsert_rev_pairwise x _ (ih hl)
      (fun y hy => hx y ((List.perm_insertionSort _ l).mem_iff.mp hy))

/-- The grouped rows produced by `aggBy` have strictly increasing
labels (pandas emits group keys in ascending sorted order, and the
keys are distinct). -/
lemma aggBy_pairwise_labels (rows : List Txn) (f : Txn → String) :
    (aggBy rows f).Pairwise (fun a b : AggRow => a.1 < b.1) := by
  unfold aggBy
  rw [List.pairwise_map]
  have hs : (List.insertionSort (fun a b : String => a ≤ b) ((rows.map f).dedup)).Pairwise
      (fun a b : String => a ≤ b) :=
    List.sorted_insertionSort _ _
  have hn : (List.insertionSort (fun a b : String => a ≤ b) ((rows.map f).dedup)).Pairwise
      (fun a b : String => a ≠ b) :=
    (List.perm_insertionSort _ _).nodup_iff.mpr (List.nodup_dedup _)
  exact (hs.and hn).imp (fun h => lt_of_le_of_ne h.1 h.2)

/-- A table whose two equal-revenue staff rows appear in the order
"Zed" then "Al". -/
def exC6 : Table := ⟨true, false, false,
  [⟨⟨0, 0⟩, 10, "Zed", "", none⟩, ⟨⟨0, 0⟩, 10, "Al", "", none⟩]⟩

/-- Evaluation of the `by_barber` grouping on `exC6`. -/
lemma exC6_by_barber : (compute_summaries exC6).by_barber
    = some [("Al", (10 : Rat), 1), ("Zed", (10 : Rat), 1)] := by
  simp [compute_summaries, exC6, aggBy, sortByRevDesc, List.insertionSort,
    List.orderedInsert, List.dedup, List.pwFilter, String.le_iff_toList_le]

/-- Counterexample to C6 as stated: in `exC6` the first-seen label
order is "Zed" before "Al", but the revenue-tied grouped table comes
out in ascending label order "Al" before "Zed" — ties are not broken
by first-seen order. -/
theorem grouped_ties_not_first_seen :
    exC6.rows.map Txn.barber = ["Zed", "Al"] ∧
    (compute_summaries exC6).by_barber
      = some [("Al", (10 : Rat), 1), ("Zed", (10 : Rat), 1)] ∧
    [("Al", (10 : Rat), 1), ("Zed", (10 : Rat), 1)]
      ≠ [("Zed", (10 : Rat), 1), ("Al", (10 : Rat), 1)] := by
  refine ⟨by decide, exC6_by_barber, by simp⟩

/-- C6 (amended).  Every grouped table the report emits (`by_barber`
or `by_method`) is sorted by strictly descending revenue, with
revenue ties in ascending group-label order — the ascending key order
of `groupby`, preserved by the stable revenue sort — rather than
first-seen label order. -/
theorem grouped_tables_sorted_desc (df : Table) (groups : List AggRow)
    (h : (compute_summaries df).by_barber = some groups ∨
         (compute_summaries df).by_method = some groups) :
    groups.Pairwise lexAgg := by
  have key : ∀ (rows : List Txn) (f : Txn → String),
      (sortByRevDesc (aggBy rows f)).Pairwise lexAgg := fun rows f =>
    insertionSort_rev_pairwise (aggBy rows f) (aggBy_pairwise_labels rows f)
  rcases h with h | h
  · by_cases hf : df.hasBarber
    · simp only [compute_summaries, hf, if_true, Option.some_inj] at h
      rw [← h]
      exact key df.rows Txn.barber
    · simp [compute_summaries, hf] at h
  · by_cases hf : df.hasPayment
    · simp only [compute_summaries, hf, if_true, Option.some_inj] at h
      rw [← h]
      exact key df.rows Txn.payment
    · simp [compute_summaries, hf] at h

/-- Witness for C6 (amended) at the concrete tied table. -/
theorem grouped_tables_sorted_desc_witness :
    ([("Al", (10 : Rat), 1), ("Zed", (10 : Rat), 1)] : List AggRow).Pairwise lexAgg :=
  grouped_tables_sorted_desc exC6 [("Al", (10 : Rat), 1), ("Zed", (10 : Rat), 1)]
    (Or.inl exC6_by_barber)

/-! ### C7: the cash-versus-card insight -/

/-- Unfolding of the cash-versus-card heuristic on a non-empty grouped
table. -/
lemma cashInsight_some_eq (bm : List AggRow) (hne : bm ≠ []) :
    cashInsight (some bm)
      = if revOf bm "Cash" ≠ 0 ∨ (bm.map (fun g => g.2.1)).sum - revOf bm "Cash" ≠ 0 then
          [Insight.cashShare
            (if revOf bm "Cash" + ((bm.map (fun g => g.2.1)).sum - revOf bm "Cash") ≠ 0 then
              revOf bm "Cash" /
                (revOf bm "Cash" + ((bm.map (fun g => g.2.1)).sum - revOf bm "Cash")) * 100
            else 0)
            (revOf bm "Cash") ((bm.map (fun g => g.2.1)).sum - revOf bm "Cash")]
        else [] := by
  have hf : bm.isEmpty = false := by
    rw [List.isEmpty_eq_false]
    exact hne
  simp [cashInsight, hf]

/-- The top-performer heuristic never emits a cash-share message. -/
lemma topInsight_no_cashShare (o : Option (List AggRow)) (sh c cd : Rat) :
    Insight.cashShare sh c cd ∉ topInsight o := by
  rcases o with _ | bl
  · simp [topInsight]
  · rcases bl with _ | ⟨g, l⟩
    · simp [topInsight]
    · simp [topInsight]

/-- The day-of-week heuristic never emits a cash-share message. -/
lemma dowInsight_no_cashShare (rows : List Txn) (sh c cd : Rat) :
    Insight.cashShare sh c cd ∉ dowInsight rows := by
  simp only [dowInsight]
  split
  · simp
  · split <;> simp

/-- The cash-versus-card heuristic is silent exactly when both buckets
are zero. -/
lemma cashInsight_eq_nil_iff (bm : List AggRow) (hne : bm ≠ []) :
    cashInsight (some bm) = [] ↔
      (revOf bm "Cash" = 0 ∧ (bm.map (fun g => g.2.1)).sum - revOf bm "Cash" = 0) := by
  rw [cashInsight_some_eq bm hne]
  split_ifs with h
  · simp only [List.cons_ne_nil, false_iff]
    tauto
  · push_neg at h
    exact iff_of_true rfl h

/-- Anything the cash-versus-card heuristic emits is a cash-share
message. -/
lemma cashInsight_mem_shape (o : Option (List AggRow)) (i : Insight)
    (h : i ∈ cashInsight o) : ∃ sh c cd, i = Insight.cashShare sh c cd := by
  rcases o with _ | bm
  · simp [cashInsight] at h
  · by_cases hne : bm = []
    · subst hne
      simp [cashInsight] at h
    · rw [cashInsight_some_eq bm hne] at h
      split_ifs at h
      · exact ⟨_, _, _, List.mem_singleton.mp h⟩
      · exact ⟨_, _, _, List.mem_singleton.mp h⟩
      · simp at h

/-- A table whose Cash and non-Cash revenues cancel (prices 5 and -5,
both reachable through normalization since coercion keeps negative
amounts). -/
def exC7 : Table := ⟨false, true, false,
  [⟨⟨0, 0⟩, 5, "", "Cash", none⟩, ⟨⟨0, 0⟩, -5, "", "Card", none⟩]⟩

/-- Evaluation of the payment grouping on `exC7`. -/
lemma exC7_by_method : (compute_summaries exC7).by_method
    = some [("Cash", (5 : Rat), 1), ("Card", (-5 : Rat), 1)] := by
  simp [compute_summaries, exC7, aggBy, sortByRevDesc, List.insertionSort,
    List.orderedInsert, List.dedup, List.pwFilter, String.le_iff_toList_le]

lemma exC7_by_barber : (compute_summaries exC7).by_barber = none := by
  simp [compute_summaries, exC7]

lemma exC7_cash : cashInsight (some [("Cash", (5 : Rat), 1), ("Card", (-5 : Rat), 1)])
    = [Insight.cashShare 0 5 (-5)] := by
  norm_num [cashInsight, revOf, List.find?]

lemma exC7_dow : dowInsight (addDowColumn exC7).rows = [] := by
  norm_num [dowInsight, addDowColumn, exC7, dayName, asStr, List.dedup, List.pwFilter,
    List.insertionSort, List.orderedInsert]

/-- The full insight list on `exC7`. -/
lemma exC7_insights : (ai_insights exC7 (compute_summaries exC7)).2
    = [Insight.cashShare 0 5 (-5)] := by
  have hf : exC7.rows.isEmpty = false := rfl
  simp [ai_insights, hf, exC7_by_barber, exC7_by_method, exC7_cash, exC7_dow, topInsight]

/-- Counterexample to C7 as stated: on `exC7` the combined revenue
total is zero, yet the cash-share insight is still produced (reporting
share 0, Cash 5, Card -5) — the "only if the combined total is
nonzero" direction of the claimed equivalence fails. -/
theorem cash_insight_fires_with_zero_combined_total :
    (ai_insights exC7 (compute_summaries exC7)).2 = [Insight.cashShare 0 5 (-5)] ∧
    ([("Cash", (5 : Rat), 1), ("Card", (-5 : Rat), 1)].map (fun g => g.2.1)).sum = 0 :=
  ⟨exC7_insights, by norm_num⟩

/-- C7 (amended).  With a non-empty `by_method` table, the cash-share
insight is produced iff the Cash bucket (the revenue of the label
exactly "Cash", 0 if absent) or the Card bucket (all other revenue) is
nonzero — Python's `if cash or card` — not iff the combined total is
nonzero.  When the combined total is nonzero the reported share is
`cash / total * 100`; when every label differs from "Cash" and the
total is positive, the insight fires with a 0% Cash share. -/
theorem cash_share_insight_condition (df : Table) (s : Summaries) (bm : List AggRow)
    (hbm : s.by_method = some bm) (hne : bm ≠ []) (hrows : df.rows ≠ []) :
    ((∃ sh c cd, Insight.cashShare sh c cd ∈ (ai_insights df s).2) ↔
      (revOf bm "Cash" ≠ 0 ∨ (bm.map (fun g => g.2.1)).sum - revOf bm "Cash" ≠ 0)) ∧
    ((bm.map (fun g => g.2.1)).sum ≠ 0 →
      cashInsight s.by_method = [Insight.cashShare
        (revOf bm "Cash" / (bm.map (fun g => g.2.1)).sum * 100)
        (revOf bm "Cash")
        ((bm.map (fun g => g.2.1)).sum - revOf bm "Cash")]) ∧
    ((∀ g ∈ bm, g.1 ≠ "Cash") → 0 < (bm.map (fun g => g.2.1)).sum →
      cashInsight s.by_method = [Insight.cashShare 0 0 ((bm.map (fun g => g.2.1)).sum)]) := by
  have hcc : revOf bm "Cash" + ((bm.map (fun g => g.2.1)).sum - revOf bm "Cash")
      = (bm.map (fun g => g.2.1)).sum := by ring
  have h2 : (bm.map (fun g => g.2.1)).sum ≠ 0 →
      cashInsight s.by_method = [Insight.cashShare
        (revOf bm "Cash" / (bm.map (fun g => g.2.1)).sum * 100)
        (revOf bm "Cash")
        ((bm.map (fun g => g.2.1)).sum - revOf bm "Cash")] := by
    intro htot
    have hcond : revOf bm "Cash" ≠ 0 ∨ (bm.map (fun g => g.2.1)).sum - revOf bm "Cash" ≠ 0 := by
      by_contra hc
      push_neg at hc
      apply htot
      linarith [hc.1, hc.2]
    rw [hbm, cashInsight_some_eq bm hne, hcc, if_pos hcond, if_pos htot]
  refine ⟨?_, h2, ?_⟩
  · have hf : df.rows.isEmpty = false := by
      rw [List.isEmpty_eq_false]
      exact hrows
    have hIs : (ai_insights df s).2
        = topInsight s.by_barber ++ cashInsight s.by_method
            ++ dowInsight (addDowColumn df).rows := by
      simp [ai_insights, hf]
    rw [hIs, hbm]
    constructor
    · rintro ⟨sh, c, cd, hmem⟩
      rcases List.mem_append.mp hmem with hmem2 | hdow
      · rcases List.mem_append.mp hmem2 with htop | hcashm
        · exact absurd htop (topInsight_no_cashShare _ _ _ _)
        · by_contra hcon
          push_neg at hcon
          rw [(cashInsight_eq_nil_iff bm hne).mpr ⟨hcon.1, hcon.2⟩] at hcashm
          simp at hcashm
      · exact absurd hdow (dowInsight_no_cashShare _ _ _ _)
    · intro hcond
      have hnonnil : cashInsight (some bm) ≠ [] := by
        intro hnil
        rcases (cashInsight_eq_nil_iff bm hne).mp hnil with ⟨h1a, h2a⟩
        rcases hcond with hc | hc
        · exact hc h1a
        · exact hc h2a
      rcases hL : cashInsight (some bm) with _ | ⟨i, l⟩
      · exact absurd hL hnonnil
      · have hi : i ∈ cashInsight (some bm) := by
          rw [hL]
          simp
        rcases cashInsight_mem_shape (some bm) i hi with ⟨sh, c, cd, rfl⟩
        exact ⟨sh, c, cd, List.mem_append.mpr
          (Or.inl (List.mem_append.mpr (Or.inr (List.mem_cons_self _ _))))⟩
  · intro hnone hpos
    have hc0 : revOf bm "Cash" = 0 := by
      unfold revOf
      rw [List.find?_eq_none.mpr (fun g hg => by simpa using hnone g hg)]
    rw [h2 hpos.ne', hc0]
    norm_num

/-- A one-row all-Card table with positive revenue. -/
def exC7W : Table := ⟨false, true, false, [⟨⟨0, 0⟩, 10, "", "Card", none⟩]⟩

/-- Evaluation of the payment grouping on `exC7W`. -/
lemma exC7W_by_method : (compute_summaries exC7W).by_method
    = some [("Card", (10 : Rat), 1)] := by
  simp [compute_summaries, exC7W, aggBy, sortByRevDesc, List.insertionSort,
    List.orderedInsert, List.dedup, List.pwFilter]

/-- Witness for C7 (amended) at the all-Card table. -/
theorem cash_share_insight_condition_witness :
    ((∃ sh c cd, Insight.cashShare sh c cd
        ∈ (ai_insights exC7W (compute_summaries exC7W)).2) ↔
      (revOf [("Card", (10 : Rat), 1)] "Cash" ≠ 0 ∨
        ([("Card", (10 : Rat), 1)].map (fun g => g.2.1)).sum
          - revOf [("Card", (10 : Rat), 1)] "Cash" ≠ 0)) ∧
    (([("Card", (10 : Rat), 1)].map (fun g => g.2.1)).sum ≠ 0 →
      cashInsight (compute_summaries exC7W).by_method = [Insight.cashShare
        (revOf [("Card", (10 : Rat), 1)] "Cash"
          / ([("Card", (10 : Rat), 1)].map (fun g => g.2.1)).sum * 100)
        (revOf [("Card", (10 : Rat), 1)] "Cash")
        (([("Card", (10 : Rat), 1)].map (fun g => g.2.1)).sum
          - revOf [("Card", (10 : Rat), 1)] "Cash")]) ∧
    ((∀ g ∈ [("Card", (10 : Rat), 1)], g.1 ≠ "Cash") →
      0 < ([("Card", (10 : Rat), 1)].map (fun g => g.2.1)).sum →
      cashInsight (compute_summaries exC7W).by_method
        = [Insight.cashShare 0 0 (([("Card", (10 : Rat), 1)].map (fun g => g.2.1)).sum)]) :=
  cash_share_insight_condition exC7W (compute_summaries exC7W)
    [("Card", (10 : Rat), 1)] exC7W_by_method (by decide) (by decide)

/-! ### C10: missing text cells become the string "nan" -/

/-- A raw table with the `Barber Name` column present but the single
record's barber cell missing (NaN). -/
def exC10 : RawTable :=
  ⟨true, true, true, false, [⟨some "1/2/2025", some "12", none, none⟩]⟩

/-- C10.  When the `Barber Name` (resp. `Payment Method`) column is
present but a record's cell is missing, `astype(str)` renders the
missing value as the literal string "nan" (not the empty string), and
that "nan" then appears as a group label: concretely, normalizing
`exC10` yields `by_barber = [("nan", 12, 1)]`. -/
theorem missing_text_cells_become_nan (parse : String → Option DateTime)
    (t : RawTable) (r : RawRecord) :
    (t.hasBarber = true → r.barber = none → (cleanRow parse t r).barber = "nan") ∧
    (t.hasPayment = true → r.payment = none → (cleanRow parse t r).payment = "nan") ∧
    (compute_summaries (load_sales_dataframe parseDate exC10)).by_barber
      = some [("nan", (12 : Rat), 1)] := by
  refine ⟨?_, ?_, ?_⟩
  · intro hb hr
    have hpr : (cleanRow parse t r).barber = pyStrip (asStr r.barber) := by
      simp [cleanRow, hb]
    rw [hpr, hr]
    decide
  · intro hp hr
    have hpr : (cleanRow parse t r).payment = pyStrip (asStr r.payment) := by
      simp [cleanRow, hp]
    rw [hpr, hr]
    decide
  · simp [compute_summaries, load_sales_dataframe, exC10, cleanRow, parseDate,
      splitOnChar, daysFromCivil, parseDecimal, stripNonNumeric, asStr, digitsVal,
      finalizeRow, pyStrip, aggBy, sortByRevDesc, List.insertionSort,
      List.orderedInsert, List.dedup, List.pwFilter]

/-- Witness for C10: the missing barber cell of `exC10` normalizes to
the label "nan" and is reported as such. -/
theorem missing_text_cells_become_nan_witness :
    (cleanRow parseDate exC10 ⟨some "1/2/2025", some "12", none, none⟩).barber = "nan" ∧
    (compute_summaries (load_sales_dataframe parseDate exC10)).by_barber
      = some [("nan", (12 : Rat), 1)] :=
  ⟨(missing_text_cells_become_nan parseDate exC10
      ⟨some "1/2/2025", some "12", none, none⟩).1 rfl rfl,
   (missing_text_cells_become_nan parseDate exC10
      ⟨some "1/2/2025", some "12", none, none⟩).2.2⟩
